import Mathlib

/-!
# Verification of the web-terminal server core

A shallow embedding of `src/bin/server/src/main.rs` (the `ProgramHandler`
broadcast hub, its history buffer, the stdin writer task, the stdout reader
task, and the per-connection relay tasks of `handle_connection`), together
with proofs and refutations of the documented behavioural properties.

Conventions of the embedding:
* the `VecDeque<String>` history buffer is a `List String`, oldest first;
* the tokio broadcast channel is a grow-only log of sent messages plus a
  cursor (`pos`) per receiver; a receiver more than `capacity` behind the
  head observes `RecvError::Lagged`;
* the unbounded stdin mpsc channel is a queue plus a flag recording whether
  the receiving (writer) task is still alive — dropping the receiver closes
  the channel and makes every later `send` fail;
* fallible operations return `Except`.
-/

namespace WebTerminal

/-- Maximum number of messages to keep before removing oldest
(`const MAX_MESSAGES: usize = 256;`, main.rs line 21). -/
def MAX_MESSAGES : Nat := 256

/-- The history-buffer update performed identically by `broadcast_input`
(main.rs lines 234–238) and by the stdout reader task (lines 199–203):

```rust
if message_buf.len() >= MAX_MESSAGES { message_buf.pop_front(); }
message_buf.push_back(msg);
```

`pop_front` removes the oldest entry, i.e. the head of the list. -/
def historyPush (buf : List String) (m : String) : List String :=
  if buf.length ≥ MAX_MESSAGES then buf.tail ++ [m] else buf ++ [m]

/-- Rust `char::is_whitespace`, restricted to the ASCII range that can occur
in the byte stream handled here (space, tab, line feed, vertical tab, form
feed, carriage return). -/
def rustIsWhitespace (c : Char) : Bool :=
  c == ' ' || c == '\t' || c == '\n' || c == '\x0b' || c == '\x0c' || c == '\r'

/-- Rust `str::trim` (main.rs line 195, `buf.trim()`): removes leading and
trailing whitespace. -/
def rustTrim (s : List Char) : List Char :=
  ((s.dropWhile rustIsWhitespace).reverse.dropWhile rustIsWhitespace).reverse

/-- `str::trim` lifted to `String`. -/
def rustTrimStr (s : String) : String :=
  String.mk (rustTrim s.data)

/-- Trimming of trailing whitespace only, leaving leading whitespace in
place.  This follows the specification text "splits on line terminators,
trims trailing whitespace" / "everything else, including any leading
whitespace, preserved"; it is compared against `rustTrim`, the operation the
source actually performs. -/
def trimEndOnly (s : List Char) : List Char :=
  (s.reverse.dropWhile rustIsWhitespace).reverse

/-- Trailing-only trimming lifted to `String`. -/
def trimEndOnlyStr (s : String) : String :=
  String.mk (trimEndOnly s.data)

/-- One result of `program_out_reader.read_line(&mut buf)` in the stdout
reader task (main.rs lines 192–208): `Ok(0)` is end of stream, `Ok(n)`
leaves the line (terminator included) in `buf`, `Err(e)` is a read error. -/
inductive ReadEvent where
  | eof : ReadEvent
  | line : String → ReadEvent
  | err : ReadEvent
deriving DecidableEq, Repr

/-- How the stdout reader loop ends: still waiting for input, terminated on
`Ok(0)` (EOF, no error), or terminated on `Err` (the error is logged). -/
inductive ReaderStatus where
  | running : ReaderStatus
  | doneEof : ReaderStatus
  | doneErr : ReaderStatus
deriving DecidableEq, Repr

/-- The stdout reader loop (main.rs lines 188–211) viewed as a function of
the successive `read_line` results: each `Ok(n)` line is trimmed and
emitted (broadcast and appended to history), `Ok(0)` breaks the loop, and
`Err` breaks the loop after logging. -/
def readerRun : List ReadEvent → List String × ReaderStatus
  | [] => ([], ReaderStatus.running)
  | ReadEvent.eof :: _ => ([], ReaderStatus.doneEof)
  | ReadEvent.err :: _ => ([], ReaderStatus.doneErr)
  | ReadEvent.line s :: rest =>
      (rustTrimStr s :: (readerRun rest).1, (readerRun rest).2)

/-- `broadcast::Sender::send`: fails exactly when there is no active
receiver (tokio broadcast semantics; the value itself is never inspected by
the server beyond `?`/`let _ =`). -/
def broadcastSend (nReceivers : Nat) (_m : String) : Except Unit Unit :=
  if nReceivers = 0 then Except.error () else Except.ok ()

/-- One iteration of the stdout reader's publish (main.rs lines 195–203):
trim the line, attempt the broadcast — its result is discarded
(`let _ = message_tx_clone2.send(trimmed.clone())`) — then append to the
history buffer. -/
def readerStep (nReceivers : Nat) (buf : List String) (line : String) : List String :=
  let trimmed := rustTrimStr line
  let _ := broadcastSend nReceivers trimmed
  historyPush buf trimmed

/-- The hub state shared through `ProgramHandler`: the history buffer
`message_buf` and the number of live receivers of `message_tx`. -/
structure HubState where
  buf : List String
  nReceivers : Nat
deriving DecidableEq, Repr

/-- `ProgramHandler::broadcast_input` (main.rs lines 228–241): first
`self.message_tx.send(input.clone())?` — on failure the `?` returns the
error before the history buffer is touched — then append `input` to the
history buffer under the write lock. -/
def broadcast_input (h : HubState) (input : String) : Except Unit Unit × HubState :=
  match broadcastSend h.nReceivers input with
  | Except.error e => (Except.error e, h)
  | Except.ok _ => (Except.ok (), { h with buf := historyPush h.buf input })

/-- The history snapshot handed out by `ProgramHandler::subscribe`
(main.rs lines 222–225): a clone of the current buffer. -/
def subscribeSnapshot (h : HubState) : List String :=
  h.buf

/-- The unbounded mpsc stdin channel (main.rs line 165): a queue of pending
lines plus whether the receiving end (held by the writer task) is still
alive.  Dropping the receiver closes the channel. -/
structure StdinChannel where
  queue : List String
  rxAlive : Bool
deriving DecidableEq, Repr

/-- `UnboundedSender::send` (used at main.rs line 120): enqueues and returns
`Ok` while the receiver is alive; returns `Err` and enqueues nothing once
the receiver has been dropped. -/
def stdin_send (ch : StdinChannel) (msg : String) : Except Unit Unit × StdinChannel :=
  if ch.rxAlive then (Except.ok (), { ch with queue := ch.queue ++ [msg] })
  else (Except.error (), ch)

/-- A unit of traffic on the process's stdin pipe: a chunk of bytes written,
or a flush. -/
inductive WriteEvent where
  | data : String → WriteEvent
  | flush : WriteEvent
deriving DecidableEq, Repr

/-- The stdin writer task (main.rs lines 167–180): for each received
message it writes the message bytes, then `b"\n"`, then flushes; if the
write fails it logs and breaks.  `ok` tells which writes succeed (after the
process dies every write fails).  Returns the pipe traffic produced and
whether the task is still alive afterwards — when the task breaks, its end
of the mpsc channel is dropped, so the second component is the resulting
`rxAlive` of the stdin channel. -/
def writerRun : List String → (String → Bool) → List WriteEvent × Bool
  | [], _ => ([], true)
  | m :: rest, ok =>
      if ok m then
        ((WriteEvent.data m :: WriteEvent.data "\n" :: WriteEvent.flush ::
          (writerRun rest ok).1), (writerRun rest ok).2)
      else ([], false)

/-- The stdin channel as left behind by a writer-task run: once the task has
broken out of its loop the receiver is dropped (channel closed); messages
still queued at that moment are discarded with the receiver. -/
def stdinAfterWriter (msgs : List String) (ok : String → Bool) : StdinChannel :=
  { queue := [], rxAlive := (writerRun msgs ok).2 }

/-- Result of running the per-connection `recv_task` loop over a list of
viewer inputs: final hub state, the messages actually published to the hub,
the messages actually enqueued to the process stdin, and whether the loop
broke (ending the task and hence the connection). -/
structure RecvResult where
  hub : HubState
  published : List String
  enqueued : List String
  broke : Bool
deriving DecidableEq, Repr

/-- The `recv_task` loop of `handle_connection` (main.rs lines 111–124):
for each text frame, `broadcast_input` first — on error, log and `break` —
then `stdin_tx.send` — on error, `break`.  `stdinOpen` is whether the
stdin channel's receiver (the writer task) is alive. -/
def recvRun (h : HubState) (stdinOpen : Bool) : List String → RecvResult
  | [] => ⟨h, [], [], false⟩
  | i :: rest =>
      match broadcast_input h i with
      | (Except.error _, h') => ⟨h', [], [], true⟩
      | (Except.ok _, h') =>
          if stdinOpen then
            let r := recvRun h' stdinOpen rest
            ⟨r.hub, i :: r.published, i :: r.enqueued, r.broke⟩
          else ⟨h', [i], [], true⟩

/-- The spawned child process handle (`tokio::process::Child`), abstracted
to an identifier. -/
structure Child where
  pid : Nat
deriving DecidableEq, Repr

/-- The state assembled by `ProgramHandler::new` on successful spawn
(main.rs lines 213–218): the live child handle, a fresh stdin channel whose
writer task is running, and an empty hub with no subscribers yet. -/
structure ProgramHandlerS where
  program_handle : Child
  stdin : StdinChannel
  hub : HubState
deriving DecidableEq, Repr

/-- `ProgramHandler::new` (main.rs lines 144–219).  The only fallible
operation is the spawn (`.spawn()?`, line 158); everything after it is
infallible construction. -/
def programHandlerNew (spawnResult : Except String Child) : Except String ProgramHandlerS :=
  match spawnResult with
  | Except.error e => Except.error e
  | Except.ok child =>
      Except.ok { program_handle := child
                  stdin := { queue := [], rxAlive := true }
                  hub := { buf := [], nReceivers := 0 } }

/-- `main` (main.rs lines 44–48): `ProgramHandler::new(..).await.expect(..)`
— the server proceeds to serve exactly when construction succeeded; on
error `expect` panics and startup aborts. -/
def serverStarts (spawnResult : Except String Child) : Bool :=
  match programHandlerNew spawnResult with
  | Except.ok _ => true
  | Except.error _ => false

/-- A receiver of the broadcast channel: `start` is the log position at
which it subscribed, `pos` the position of the next message it will
receive, `out` the messages its `send_task` relay has forwarded to the
websocket so far, and `broken` whether that relay loop has exited
(`while let Ok(msg) = program_rx.recv().await` breaks on any `Err`,
main.rs lines 102–108). -/
structure Receiver where
  start : Nat
  pos : Nat
  out : List String
  broken : Bool
deriving DecidableEq, Repr

/-- The broadcast channel created at main.rs line 161
(`broadcast::channel(MAX_MESSAGES)`): the append-only log of every message
ever sent, plus the per-subscriber receivers. -/
structure ChanState where
  log : List String
  receivers : List Receiver
deriving DecidableEq, Repr

/-- An atomic event on the broadcast channel: a `send` by some publisher, a
`subscribe` creating a receiver at the current head, or one `recv` poll by
receiver `i`'s relay loop. -/
inductive ChanEvent where
  | send : String → ChanEvent
  | subscribe : ChanEvent
  | recv : Nat → ChanEvent
deriving DecidableEq, Repr

/-- Small-step semantics of the tokio broadcast channel with capacity `c`,
together with the relay loop of `handle_connection`'s `send_task`:
`send` appends to the log and never blocks; `subscribe` registers a
receiver that will see only later messages; `recv i` delivers the next
logged message to receiver `i`, or — when the receiver has fallen more
than `c` behind — yields `RecvError::Lagged`, on which the relay loop
breaks (`broken := true`; tokio advances the lagged cursor to the oldest
retained message).  A `recv` on a broken receiver or with nothing pending
leaves the state unchanged. -/
def chanStep (c : Nat) (s : ChanState) : ChanEvent → ChanState
  | ChanEvent.send m => { s with log := s.log ++ [m] }
  | ChanEvent.subscribe =>
      { s with receivers :=
          s.receivers ++ [{ start := s.log.length, pos := s.log.length
                            out := [], broken := false }] }
  | ChanEvent.recv i =>
      match s.receivers[i]? with
      | none => s
      | some r =>
          if r.broken then s
          else if c < s.log.length - r.pos then
            { s with receivers :=
                s.receivers.set i { r with pos := s.log.length - c, broken := true } }
          else
            match s.log[r.pos]? with
            | some m =>
                { s with receivers :=
                    s.receivers.set i { r with pos := r.pos + 1, out := r.out ++ [m] } }
            | none => s

/-- Run a schedule of channel events from a given state. -/
def runSchedFrom (c : Nat) (s : ChanState) (evs : List ChanEvent) : ChanState :=
  evs.foldl (chanStep c) s

/-- Run a schedule of channel events from the initial state (empty log, no
receivers), as after `broadcast::channel(MAX_MESSAGES)`. -/
def runSched (c : Nat) (evs : List ChanEvent) : ChanState :=
  runSchedFrom c { log := [], receivers := [] } evs

/-- A concrete schedule on the broadcast channel: two subscribers attach,
three messages are published, and only the second subscriber polls its
receiver, so with capacity 1 the first subscriber ends up lagged. -/
def lagSched : List ChanEvent :=
  [ChanEvent.subscribe, ChanEvent.subscribe, ChanEvent.send "a",
   ChanEvent.recv 1, ChanEvent.send "b", ChanEvent.recv 1,
   ChanEvent.send "c", ChanEvent.recv 1]

/-- The atomic actions of one `broadcast_input`/reader publish running
concurrently with one `subscribe` call (main.rs lines 222–225 and
228–241): the publisher sends on the channel and then appends to the
history buffer under the write lock; the subscriber acquires the read
lock, registers its channel receiver, clones the buffer, and releases the
read lock. -/
inductive PAct where
  | send : PAct
  | append : PAct
  | lockR : PAct
  | subCh : PAct
  | clone : PAct
  | unlockR : PAct
deriving DecidableEq, Repr

/-- Joint state of the race between one publish of message `m` and one
subscribe: the history buffer, whether the new receiver is registered,
whether `m` was delivered to the new receiver (tokio delivers a send only
to receivers registered before it), and the snapshot taken (if any). -/
structure PState where
  buf : List String
  registered : Bool
  delivered : Bool
  snapshot : Option (List String)
deriving DecidableEq, Repr

/-- Effect of each atomic action: `send` delivers `m` to the new receiver
iff it is already registered; `append` performs the history push; `subCh`
registers the receiver; `clone` snapshots the buffer; the lock actions
only constrain admissible schedules. -/
def pStep (m : String) (s : PState) : PAct → PState
  | PAct.send => { s with delivered := s.registered }
  | PAct.append => { s with buf := historyPush s.buf m }
  | PAct.subCh => { s with registered := true }
  | PAct.clone => { s with snapshot := some s.buf }
  | PAct.lockR => s
  | PAct.unlockR => s

/-- Run a schedule of the race from an initial buffer (receiver not yet
registered, nothing delivered, no snapshot). -/
def pRun (buf0 : List String) (m : String) (acts : List PAct) : PState :=
  acts.foldl (pStep m) { buf := buf0, registered := false, delivered := false, snapshot := none }

/-- Index of the (unique) occurrence of an action in a schedule. -/
def posOf (acts : List PAct) (a : PAct) : Nat :=
  acts.findIdx (· == a)

/-- Admissible interleavings of the publish and the subscribe: each of the
six actions occurs exactly once; the publisher's program order is
`send` before `append` and the subscriber's is
`lockR`, `subCh`, `clone`, `unlockR`; and the `RwLock` discipline forbids
the write-locked `append` inside the subscriber's read-locked critical
section. -/
def validSchedule (acts : List PAct) : Bool :=
  acts.length = 6 &&
  ([PAct.send, PAct.append, PAct.lockR, PAct.subCh, PAct.clone, PAct.unlockR].all
    fun a => acts.contains a) &&
  decide (posOf acts PAct.send < posOf acts PAct.append) &&
  decide (posOf acts PAct.lockR < posOf acts PAct.subCh) &&
  decide (posOf acts PAct.subCh < posOf acts PAct.clone) &&
  decide (posOf acts PAct.clone < posOf acts PAct.unlockR) &&
  !(decide (posOf acts PAct.lockR < posOf acts PAct.append) &&
    decide (posOf acts PAct.append < posOf acts PAct.unlockR))

/-- How many times the new subscriber observes the raced message `m`: its
occurrences in the snapshot it was handed, plus one if it was delivered on
the live receiver. -/
def observedCount (m : String) (s : PState) : Nat :=
  (match s.snapshot with
   | some snap => snap.count m
   | none => 0) + (if s.delivered then 1 else 0)

/-! ## History buffer lemmas -/

lemma MAX_MESSAGES_pos : 0 < MAX_MESSAGES := by
  decide

lemma length_historyPush_le (buf : List String) (m : String)
    (h : buf.length ≤ MAX_MESSAGES) : (historyPush buf m).length ≤ MAX_MESSAGES := by
  have hpos := MAX_MESSAGES_pos
  unfold historyPush
  split
  · rename_i hge
    simp only [List.length_append, List.length_tail, List.length_cons, List.length_nil]
    omega
  · rename_i hlt
    simp only [List.length_append, List.length_cons, List.length_nil]
    omega

lemma foldl_historyPush_eq_drop :
    ∀ (msgs buf : List String), buf.length ≤ MAX_MESSAGES →
      List.foldl historyPush buf msgs
        = (buf ++ msgs).drop (buf.length + msgs.length - MAX_MESSAGES) := by
  intro msgs
  induction msgs with
  | nil =>
      intro buf h
      simp only [List.foldl_nil, List.append_nil, List.length_nil, Nat.add_zero]
      have hz : buf.length - MAX_MESSAGES = 0 := by omega
      rw [hz, List.drop_zero]
  | cons m rest ih =>
      intro buf h
      have hfold : List.foldl historyPush buf (m :: rest)
          = List.foldl historyPush (historyPush buf m) rest := rfl
      rw [hfold, ih (historyPush buf m) (length_historyPush_le buf m h)]
      unfold historyPush
      split
      · rename_i hge
        cases buf with
        | nil =>
            exfalso
            simp only [List.length_nil] at hge
            have hpos := MAX_MESSAGES_pos
            omega
        | cons a t =>
            have hb : t.length + 1 = MAX_MESSAGES := by
              simp only [List.length_cons] at h hge
              omega
            simp only [List.tail_cons]
            have e1 : (t ++ [m]).length + rest.length - MAX_MESSAGES = rest.length := by
              simp only [List.length_append, List.length_cons, List.length_nil]
              omega
            have e2 : (a :: t).length + (m :: rest).length - MAX_MESSAGES
                = rest.length + 1 := by
              simp only [List.length_cons]
              omega
            have e3 : (t ++ [m]) ++ rest = t ++ (m :: rest) := by
              rw [List.append_assoc, List.singleton_append]
            rw [e1, e2, e3, List.cons_append, List.drop_succ_cons]
      · rename_i hlt
        have e1 : (buf ++ [m]).length + rest.length - MAX_MESSAGES
            = buf.length + (m :: rest).length - MAX_MESSAGES := by
          simp only [List.length_append, List.length_cons, List.length_nil]
          omega
        have e2 : (buf ++ [m]) ++ rest = buf ++ (m :: rest) := by
          rw [List.append_assoc, List.singleton_append]
        rw [e1, e2]

/-! ## Claim theorems -/

/-- C1: for every sequence of messages published to the hub (via
`broadcast_input` or the stdout reader, both of which update the buffer by
`historyPush`), the history length never exceeds `MAX_MESSAGES`, and after
publishing more than `MAX_MESSAGES` messages the buffer holds exactly the
last `MAX_MESSAGES` published messages, oldest first, the oldest being
evicted FIFO on each insert at capacity. -/
theorem C1_history_bound (msgs : List String) :
    (List.foldl historyPush [] msgs).length ≤ MAX_MESSAGES
    ∧ (msgs.length > MAX_MESSAGES →
        List.foldl historyPush [] msgs = msgs.drop (msgs.length - MAX_MESSAGES)
        ∧ (List.foldl historyPush [] msgs).length = MAX_MESSAGES)
    ∧ (∀ (h : HubState) (i : String), h.nReceivers ≠ 0 →
        (broadcast_input h i).2.buf = historyPush h.buf i)
    ∧ (∀ (n : Nat) (buf : List String) (line : String),
        readerStep n buf line = historyPush buf (rustTrimStr line)) := by
  have hchar := foldl_historyPush_eq_drop msgs []
    (by simp only [List.length_nil]; exact Nat.zero_le _)
  simp only [List.nil_append, List.length_nil, Nat.zero_add] at hchar
  refine ⟨?_, ?_, ?_, ?_⟩
  · rw [hchar, List.length_drop]; omega
  · intro hk
    refine ⟨hchar, ?_⟩
    rw [hchar, List.length_drop]; omega
  · intro h i hn
    simp [broadcast_input, broadcastSend, hn]
  · intro n buf line
    rfl

/-- Witness for C1 at a concrete over-capacity publish sequence. -/
theorem C1_history_bound_witness :
    (List.replicate 257 "x").length > MAX_MESSAGES
    ∧ List.foldl historyPush [] (List.replicate 257 "x")
        = (List.replicate 257 "x").drop ((List.replicate 257 "x").length - MAX_MESSAGES) := by
  have h : (List.replicate 257 "x").length > MAX_MESSAGES := by
    rw [List.length_replicate]
    decide
  exact ⟨h, ((C1_history_bound (List.replicate 257 "x")).2.1 h).1⟩

/-- C2 (refuted on the code): the claim is that a message published
concurrently with a `subscribe` is observed by the new subscriber exactly
once — in the snapshot or live, never both, never neither.  In the source,
`broadcast_input` performs `message_tx.send` *before* acquiring the buffer
write lock, while `subscribe` registers its receiver and clones the buffer
inside the read-locked section; under the admissible interleaving
`send, lockR, subCh, clone, unlockR, append` the new subscriber observes
the message zero times. -/
theorem C2_snapshot_miss_violation :
    validSchedule
      [PAct.send, PAct.lockR, PAct.subCh, PAct.clone, PAct.unlockR, PAct.append] = true
    ∧ observedCount "m"
        (pRun [] "m"
          [PAct.send, PAct.lockR, PAct.subCh, PAct.clone, PAct.unlockR, PAct.append]) = 0 := by
  decide

/-! ## Trimming lemmas -/

lemma head?_dropWhile_not {α : Type} (p : α → Bool) :
    ∀ (l : List α) (c : α), (l.dropWhile p).head? = some c → p c = false := by
  intro l
  induction l with
  | nil =>
      intro c hc
      simp [List.dropWhile] at hc
  | cons a t ih =>
      intro c hc
      rw [List.dropWhile_cons] at hc
      by_cases hpa : p a = true
      · rw [if_pos hpa] at hc
        exact ih c hc
      · rw [if_neg hpa] at hc
        simp only [List.head?_cons, Option.some.injEq] at hc
        subst hc
        exact Bool.eq_false_iff.mpr hpa

lemma dropWhile_eq_trim_append (s : List Char) :
    s.dropWhile rustIsWhitespace
      = rustTrim s
        ++ ((s.dropWhile rustIsWhitespace).reverse.takeWhile rustIsWhitespace).reverse := by
  conv_lhs => rw [← List.reverse_reverse (s.dropWhile rustIsWhitespace),
    ← List.takeWhile_append_dropWhile rustIsWhitespace (s.dropWhile rustIsWhitespace).reverse]
  rw [List.reverse_append]
  rfl

lemma rustTrim_decomposition (s : List Char) :
    ∃ pre post,
      s = pre ++ rustTrim s ++ post
      ∧ pre.all rustIsWhitespace = true
      ∧ post.all rustIsWhitespace = true := by
  refine ⟨s.takeWhile rustIsWhitespace,
    ((s.dropWhile rustIsWhitespace).reverse.takeWhile rustIsWhitespace).reverse, ?_, ?_, ?_⟩
  · conv_lhs => rw [← List.takeWhile_append_dropWhile rustIsWhitespace s]
    rw [List.append_assoc]
    congr 1
    exact dropWhile_eq_trim_append s
  · rw [List.all_eq_true]
    intro x hx
    exact List.mem_takeWhile_imp hx
  · rw [List.all_reverse, List.all_eq_true]
    intro x hx
    exact List.mem_takeWhile_imp hx

lemma rustTrim_head_not_ws (s : List Char) (c : Char)
    (hc : (rustTrim s).head? = some c) : rustIsWhitespace c = false := by
  apply head?_dropWhile_not rustIsWhitespace s c
  rw [dropWhile_eq_trim_append s, List.head?_append, hc]
  rfl

lemma rustTrim_getLast_not_ws (s : List Char) (c : Char)
    (hc : (rustTrim s).getLast? = some c) : rustIsWhitespace c = false := by
  unfold rustTrim at hc
  rw [List.getLast?_reverse] at hc
  exact head?_dropWhile_not rustIsWhitespace _ c hc

/-- C3 (counterexample to the claim as stated): for the stdout line
`" a\n"` the emitted message is `"a"` — the source applies `str::trim`,
which removes the *leading* space as well — whereas trailing-only trimming
would keep it as `" a"`. -/
theorem C3_leading_whitespace_counterexample :
    (readerRun [ReadEvent.line " a\n", ReadEvent.eof]).1 = ["a"]
    ∧ trimEndOnlyStr " a\n" = " a"
    ∧ ("a" : String) ≠ " a" := by
  refine ⟨rfl, rfl, by decide⟩

/-- C3 (amended): every stdout line is emitted with *leading and trailing*
whitespace removed (`str::trim`): the emitted message is an inner segment
of the line flanked by whitespace-only margins on both sides, and itself
neither starts nor ends with whitespace; end-of-stream terminates the
reader loop without error and a read error terminates it on the error
path (where it is logged). -/
theorem C3_reader_line_framing (ls : List String) :
    readerRun (ls.map ReadEvent.line ++ [ReadEvent.eof])
      = (ls.map rustTrimStr, ReaderStatus.doneEof)
    ∧ readerRun (ls.map ReadEvent.line ++ [ReadEvent.err])
      = (ls.map rustTrimStr, ReaderStatus.doneErr)
    ∧ (∀ s : List Char, ∃ pre post,
        s = pre ++ rustTrim s ++ post
        ∧ pre.all rustIsWhitespace = true
        ∧ post.all rustIsWhitespace = true
        ∧ (∀ c, (rustTrim s).head? = some c → rustIsWhitespace c = false)
        ∧ (∀ c, (rustTrim s).getLast? = some c → rustIsWhitespace c = false)) := by
  refine ⟨?_, ?_, ?_⟩
  · induction ls with
    | nil => rfl
    | cons s rest ih =>
        simp only [List.map_cons, List.cons_append, readerRun, List.append_eq, ih]
  · induction ls with
    | nil => rfl
    | cons s rest ih =>
        simp only [List.map_cons, List.cons_append, readerRun, List.append_eq, ih]
  · intro s
    obtain ⟨pre, post, hdec, hpre, hpost⟩ := rustTrim_decomposition s
    exact ⟨pre, post, hdec, hpre, hpost,
      fun c hc => rustTrim_head_not_ws s c hc,
      fun c hc => rustTrim_getLast_not_ws s c hc⟩

/-- Witness for C3 at a concrete stream: one line with whitespace on both
sides, ended by EOF. -/
theorem C3_reader_line_framing_witness :
    readerRun ([" a\n"].map ReadEvent.line ++ [ReadEvent.eof])
      = ([" a\n"].map rustTrimStr, ReaderStatus.doneEof)
    ∧ ∃ pre post,
        (" a\n" : String).data = pre ++ rustTrim (" a\n" : String).data ++ post
        ∧ pre.all rustIsWhitespace = true
        ∧ post.all rustIsWhitespace = true
        ∧ (∀ c, (rustTrim (" a\n" : String).data).head? = some c →
            rustIsWhitespace c = false)
        ∧ (∀ c, (rustTrim (" a\n" : String).data).getLast? = some c →
            rustIsWhitespace c = false) :=
  ⟨(C3_reader_line_framing [" a\n"]).1,
   (C3_reader_line_framing [" a\n"]).2.2 (" a\n" : String).data⟩

/-- C4 (counterexample to the claim as stated): after the writer task has
observed a write failure and stopped, a subsequent `send` on the stdin
channel returns an error and enqueues nothing — it does not "succeed
locally", because ending the writer task drops `stdin_rx`, closing the
unbounded channel. -/
theorem C4_send_after_stop_counterexample :
    (stdin_send (stdinAfterWriter ["a"] (fun _ => false)) "hello").1 = Except.error ()
    ∧ (stdin_send (stdinAfterWriter ["a"] (fun _ => false)) "hello").2.queue = [] := by
  exact ⟨rfl, rfl⟩

/-- C4 (amended): once the stdin writer task has observed a write failure
and stopped, every subsequent `writeLine` (send on the stdin channel)
*fails* — the channel is closed by the dropped receiver — and nothing is
enqueued, so the line is never delivered to the process. -/
theorem C4_send_after_writer_stop_fails (msgs : List String) (ok : String → Bool)
    (m : String) (h : (writerRun msgs ok).2 = false) :
    stdin_send (stdinAfterWriter msgs ok) m
      = (Except.error (), stdinAfterWriter msgs ok) := by
  simp [stdin_send, stdinAfterWriter, h]

/-- Witness for C4: the writer fails on its first write and every later
send errors out. -/
theorem C4_send_after_writer_stop_fails_witness :
    (writerRun ["a"] (fun _ => false)).2 = false
    ∧ stdin_send (stdinAfterWriter ["a"] (fun _ => false)) "hello"
        = (Except.error (), stdinAfterWriter ["a"] (fun _ => false)) :=
  ⟨rfl, C4_send_after_writer_stop_fails ["a"] (fun _ => false) "hello" rfl⟩

/-- C7 (counterexample to the claim as stated): with the writer task gone,
a viewer sending `["a", "b"]` gets only `"a"` published — the failed stdin
send breaks the recv loop, so `"b"` is never processed and the viewer's
bridge terminates. -/
theorem C7_second_input_lost_counterexample :
    (recvRun ⟨[], 1⟩ false ["a", "b"]).published ≠ ["a", "b"]
    ∧ (recvRun ⟨[], 1⟩ false ["a", "b"]).broke = true := by
  decide

/-- C7 (amended): after the stdin writer task has stopped, the *first*
input a viewer sends is still published to the hub and stored in History
(the broadcast happens before the stdin send), but the stdin enqueue fails,
the recv loop breaks, the viewer's bridge terminates, and no further input
from that connection is processed. -/
theorem C7_first_input_only_after_death (h : HubState) (i : String)
    (rest : List String) (hn : h.nReceivers ≠ 0) :
    recvRun h false (i :: rest)
      = ⟨{ h with buf := historyPush h.buf i }, [i], [], true⟩ := by
  simp [recvRun, broadcast_input, broadcastSend, hn]

/-- Witness for C7 with one live subscriber and inputs `["a", "b"]`. -/
theorem C7_first_input_only_after_death_witness :
    (⟨[], 1⟩ : HubState).nReceivers ≠ 0
    ∧ recvRun ⟨[], 1⟩ false ["a", "b"]
        = ⟨⟨["a"], 1⟩, ["a"], [], true⟩ :=
  ⟨by decide, C7_first_input_only_after_death ⟨[], 1⟩ "a" ["b"] (by decide)⟩

/-- C8: `ProgramHandler::new` returns an error exactly when the spawn
fails; on spawn failure the server does not come up (`expect` aborts
startup), and on success the handler owns the live child handle with a
fresh stdin channel and an empty hub. -/
theorem C8_spawn_failure_fatal (r : Except String Child) :
    ((∃ e, programHandlerNew r = Except.error e) ↔ (∃ e, r = Except.error e))
    ∧ (∀ e, r = Except.error e →
        programHandlerNew r = Except.error e ∧ serverStarts r = false)
    ∧ (∀ c, r = Except.ok c →
        serverStarts r = true
        ∧ programHandlerNew r
            = Except.ok { program_handle := c
                          stdin := { queue := [], rxAlive := true }
                          hub := { buf := [], nReceivers := 0 } }) := by
  cases r <;> simp [programHandlerNew, serverStarts]

/-- Witness for C8: a successful and a failed spawn. -/
theorem C8_spawn_failure_fatal_witness :
    serverStarts (Except.ok ⟨0⟩) = true
    ∧ serverStarts (Except.error "spawn failed") = false :=
  ⟨((C8_spawn_failure_fatal (Except.ok ⟨0⟩)).2.2 ⟨0⟩ rfl).1,
   ((C8_spawn_failure_fatal (Except.error "spawn failed")).2.1 "spawn failed" rfl).2⟩

/-- C9: when no subscriber exists, `message_tx.send` fails, so
`broadcast_input` returns the error with the hub state unchanged (the `?`
returns before the history append), and the calling recv loop breaks
without enqueueing the input to the process stdin. -/
theorem C9_broadcast_failure_no_side_effects (h : HubState) (i : String)
    (hn : h.nReceivers = 0) :
    broadcast_input h i = (Except.error (), h)
    ∧ (∀ (stdinOpen : Bool) (rest : List String),
        recvRun h stdinOpen (i :: rest) = ⟨h, [], [], true⟩) := by
  constructor
  · simp [broadcast_input, broadcastSend, hn]
  · intro stdinOpen rest
    simp [recvRun, broadcast_input, broadcastSend, hn]

/-- Witness for C9: a hub with history but no subscriber rejects the
publish and the recv loop stops before the stdin send. -/
theorem C9_broadcast_failure_no_side_effects_witness :
    (⟨["h1"], 0⟩ : HubState).nReceivers = 0
    ∧ broadcast_input ⟨["h1"], 0⟩ "x" = (Except.error (), ⟨["h1"], 0⟩)
    ∧ recvRun ⟨["h1"], 0⟩ true ["x", "y"] = ⟨⟨["h1"], 0⟩, [], [], true⟩ :=
  ⟨rfl, (C9_broadcast_failure_no_side_effects ⟨["h1"], 0⟩ "x" rfl).1,
   (C9_broadcast_failure_no_side_effects ⟨["h1"], 0⟩ "x" rfl).2 true ["y"]⟩

/-- C10: the stdout reader appends every (trimmed) line to the history
buffer regardless of how many broadcast receivers exist — the send result
is discarded, so a failing send (zero receivers) does not prevent the
append — and a later `subscribe` hands that history out as its snapshot. -/
theorem C10_history_append_without_subscribers (nReceivers : Nat)
    (buf : List String) (lines : List String) :
    List.foldl (readerStep nReceivers) buf lines
      = List.foldl historyPush buf (lines.map rustTrimStr)
    ∧ List.foldl (readerStep 0) buf lines = List.foldl (readerStep nReceivers) buf lines
    ∧ (∀ m, broadcastSend 0 m = Except.error ())
    ∧ subscribeSnapshot { buf := List.foldl (readerStep 0) buf lines
                          nReceivers := nReceivers }
        = List.foldl historyPush buf (lines.map rustTrimStr) := by
  have key : ∀ k : Nat, List.foldl (readerStep k) buf lines
      = List.foldl historyPush buf (lines.map rustTrimStr) := by
    intro k
    rw [List.foldl_map]
    rfl
  refine ⟨key nReceivers, ?_, fun m => rfl, key 0⟩
  rw [key 0, key nReceivers]

/-! ## Broadcast channel lemmas -/

lemma runSchedFrom_cons (c : Nat) (s : ChanState) (e : ChanEvent) (evs : List ChanEvent) :
    runSchedFrom c s (e :: evs) = runSchedFrom c (chanStep c s e) evs := rfl

lemma runSchedFrom_sends (c : Nat) :
    ∀ (ms : List String) (s : ChanState),
      runSchedFrom c s (ms.map ChanEvent.send) = { s with log := s.log ++ ms } := by
  intro ms
  induction ms with
  | nil =>
      intro s
      simp [runSchedFrom]
  | cons m rest ih =>
      intro s
      rw [List.map_cons, runSchedFrom_cons,
        show chanStep c s (ChanEvent.send m) = { s with log := s.log ++ [m] } from rfl,
        ih { s with log := s.log ++ [m] }]
      simp

lemma chanInv_step (c : Nat) (s : ChanState) (e : ChanEvent)
    (hInv : ∀ r ∈ s.receivers,
      r.start ≤ r.pos ∧ r.pos ≤ s.log.length
      ∧ (r.broken = false → r.out = (s.log.take r.pos).drop r.start)) :
    ∀ r ∈ (chanStep c s e).receivers,
      r.start ≤ r.pos ∧ r.pos ≤ (chanStep c s e).log.length
      ∧ (r.broken = false → r.out = ((chanStep c s e).log.take r.pos).drop r.start) := by
  cases e with
  | send m =>
      intro r hr
      simp only [chanStep] at hr ⊢
      obtain ⟨h1, h2, h3⟩ := hInv r hr
      refine ⟨h1, ?_, ?_⟩
      · rw [List.length_append]
        omega
      · intro hb
        rw [h3 hb, List.take_append_of_le_length h2]
  | subscribe =>
      intro r hr
      simp only [chanStep] at hr ⊢
      rcases List.mem_append.mp hr with h | h
      · exact hInv r h
      · rw [List.mem_singleton] at h
        subst h
        refine ⟨le_refl _, le_refl _, fun _ => ?_⟩
        rw [List.take_length, List.drop_length]
  | recv i =>
      rcases hri : s.receivers[i]? with _ | r₀
      · have hstep : chanStep c s (ChanEvent.recv i) = s := by
          simp [chanStep, hri]
        rw [hstep]
        exact hInv
      · obtain ⟨hilt, hgot⟩ := List.getElem?_eq_some.mp hri
        have hmem0 : r₀ ∈ s.receivers := hgot ▸ List.getElem_mem hilt
        obtain ⟨g1, g2, g3⟩ := hInv r₀ hmem0
        by_cases hb0 : r₀.broken = true
        · have hstep : chanStep c s (ChanEvent.recv i) = s := by
            simp [chanStep, hri, hb0]
          rw [hstep]
          exact hInv
        · have hb0f : r₀.broken = false := Bool.eq_false_iff.mpr hb0
          by_cases hlag : c < s.log.length - r₀.pos
          · have hstep : chanStep c s (ChanEvent.recv i)
                = { s with receivers :=
                    s.receivers.set i ⟨r₀.start, s.log.length - c, r₀.out, true⟩ } := by
              simp [chanStep, hri, hb0, hlag]
            rw [hstep]
            intro r hr
            simp only [] at hr
            rcases List.mem_or_eq_of_mem_set hr with h | h
            · exact hInv r h
            · subst h
              refine ⟨?_, ?_, ?_⟩
              · show r₀.start ≤ s.log.length - c
                omega
              · show s.log.length - c ≤ s.log.length
                exact Nat.sub_le _ _
              · intro hb
                simp at hb
          · rcases hm : s.log[r₀.pos]? with _ | m
            · have hstep : chanStep c s (ChanEvent.recv i) = s := by
                simp [chanStep, hri, hb0, hlag, hm]
              rw [hstep]
              exact hInv
            · obtain ⟨hplt, hgm⟩ := List.getElem?_eq_some.mp hm
              have hstep : chanStep c s (ChanEvent.recv i)
                  = { s with receivers :=
                      s.receivers.set i ⟨r₀.start, r₀.pos + 1, r₀.out ++ [m], r₀.broken⟩ } := by
                simp [chanStep, hri, hb0, hlag, hm]
              rw [hstep]
              intro r hr
              simp only [] at hr
              rcases List.mem_or_eq_of_mem_set hr with h | h
              · exact hInv r h
              · subst h
                refine ⟨?_, ?_, ?_⟩
                · show r₀.start ≤ r₀.pos + 1
                  omega
                · show r₀.pos + 1 ≤ s.log.length
                  omega
                · intro _
                  show r₀.out ++ [m] = (s.log.take (r₀.pos + 1)).drop r₀.start
                  rw [g3 hb0f, List.take_succ, hm, Option.toList_some,
                    List.drop_append_of_le_length]
                  rw [List.length_take]
                  omega

lemma chanInv_from (c : Nat) :
    ∀ (evs : List ChanEvent) (s : ChanState),
      (∀ r ∈ s.receivers,
        r.start ≤ r.pos ∧ r.pos ≤ s.log.length
        ∧ (r.broken = false → r.out = (s.log.take r.pos).drop r.start)) →
      ∀ r ∈ (runSchedFrom c s evs).receivers,
        r.start ≤ r.pos ∧ r.pos ≤ (runSchedFrom c s evs).log.length
        ∧ (r.broken = false →
            r.out = ((runSchedFrom c s evs).log.take r.pos).drop r.start) := by
  intro evs
  induction evs with
  | nil => intro s hInv; exact hInv
  | cons e rest ih =>
      intro s hInv
      rw [runSchedFrom_cons]
      exact ih (chanStep c s e) (chanInv_step c s e hInv)

lemma chanInv_run (c : Nat) (evs : List ChanEvent) :
    ∀ r ∈ (runSched c evs).receivers,
      r.start ≤ r.pos ∧ r.pos ≤ (runSched c evs).log.length
      ∧ (r.broken = false →
          r.out = ((runSched c evs).log.take r.pos).drop r.start) := by
  apply chanInv_from
  intro r hr
  simp at hr

lemma chan_frozen_step (c : Nat) (s : ChanState) (e : ChanEvent) (i : Nat) (r : Receiver)
    (hri : s.receivers[i]? = some r) (hbr : r.broken = true) :
    (chanStep c s e).receivers[i]? = some r := by
  cases e with
  | send m => simpa [chanStep] using hri
  | subscribe =>
      obtain ⟨hlt, -⟩ := List.getElem?_eq_some.mp hri
      simp only [chanStep]
      rw [List.getElem?_append, if_pos hlt]
      exact hri
  | recv j =>
      rcases hrj : s.receivers[j]? with _ | r₀
      · have hstep : chanStep c s (ChanEvent.recv j) = s := by simp [chanStep, hrj]
        rw [hstep]; exact hri
      · by_cases hij : j = i
        · subst hij
          rw [hri] at hrj
          injection hrj with hr0
          subst hr0
          have hstep : chanStep c s (ChanEvent.recv j) = s := by
            simp [chanStep, hri, hbr]
          rw [hstep]; exact hri
        · by_cases hb0 : r₀.broken = true
          · have hstep : chanStep c s (ChanEvent.recv j) = s := by
              simp [chanStep, hrj, hb0]
            rw [hstep]; exact hri
          · by_cases hlag : c < s.log.length - r₀.pos
            · have hstep : chanStep c s (ChanEvent.recv j)
                  = { s with receivers :=
                      s.receivers.set j ⟨r₀.start, s.log.length - c, r₀.out, true⟩ } := by
                simp [chanStep, hrj, hb0, hlag]
              rw [hstep]
              simp only []
              rw [List.getElem?_set_ne hij]
              exact hri
            · rcases hm : s.log[r₀.pos]? with _ | m
              · have hstep : chanStep c s (ChanEvent.recv j) = s := by
                  simp [chanStep, hrj, hb0, hlag, hm]
                rw [hstep]; exact hri
              · have hstep : chanStep c s (ChanEvent.recv j)
                    = { s with receivers :=
                        s.receivers.set j ⟨r₀.start, r₀.pos + 1, r₀.out ++ [m], r₀.broken⟩ } := by
                  simp [chanStep, hrj, hb0, hlag, hm]
                rw [hstep]
                simp only []
                rw [List.getElem?_set_ne hij]
                exact hri

lemma chan_frozen_run (c : Nat) (evs : List ChanEvent) :
    ∀ (s : ChanState) (i : Nat) (r : Receiver),
      s.receivers[i]? = some r → r.broken = true →
      (runSchedFrom c s evs).receivers[i]? = some r := by
  induction evs with
  | nil => intro s i r hri _; exact hri
  | cons e rest ih =>
      intro s i r hri hbr
      rw [runSchedFrom_cons]
      exact ih (chanStep c s e) i r (chan_frozen_step c s e i r hri hbr) hbr

lemma chan_drain (c : Nat) :
    ∀ (n : Nat) (s : ChanState) (i st p : Nat) (o : List String),
      s.receivers[i]? = some ⟨st, p, o, false⟩ →
      p ≤ s.log.length → s.log.length - p ≤ c → s.log.length - p = n →
      (runSchedFrom c s (List.replicate n (ChanEvent.recv i))).log = s.log
      ∧ (runSchedFrom c s (List.replicate n (ChanEvent.recv i))).receivers[i]?
          = some ⟨st, s.log.length, o ++ s.log.drop p, false⟩ := by
  intro n
  induction n with
  | zero =>
      intro s i st p o hri hple hcap h0
      have hp : p = s.log.length := by omega
      subst hp
      exact ⟨rfl, by rw [List.drop_length, List.append_nil]; exact hri⟩
  | succ n ih =>
      intro s i st p o hri hple hcap hsn
      have hplt : p < s.log.length := by omega
      have hm : s.log[p]? = some s.log[p] := List.getElem?_eq_getElem hplt
      have hnlag : ¬ c < s.log.length - p := by omega
      have hilt : i < s.receivers.length := (List.getElem?_eq_some.mp hri).1
      have hstep : chanStep c s (ChanEvent.recv i)
          = { s with receivers :=
              s.receivers.set i ⟨st, p + 1, o ++ [s.log[p]], false⟩ } := by
        simp [chanStep, hri, hnlag, hm]
      have hset :
          ({ s with receivers := s.receivers.set i ⟨st, p + 1, o ++ [s.log[p]], false⟩ }
              : ChanState).receivers[i]?
            = some ⟨st, p + 1, o ++ [s.log[p]], false⟩ := by
        simp only []
        rw [List.getElem?_set_self hilt]
      have h1 : p + 1 ≤ s.log.length := hplt
      have h2 : s.log.length - (p + 1) ≤ c := by omega
      have h3 : s.log.length - (p + 1) = n := by omega
      have key := ih _ i st (p + 1) (o ++ [s.log[p]]) hset h1 h2 h3
      rw [List.replicate_succ, runSchedFrom_cons, hstep]
      refine ⟨key.1, ?_⟩
      rw [key.2]
      show some (⟨st, s.log.length, (o ++ [s.log[p]]) ++ s.log.drop (p + 1), false⟩ : Receiver)
        = some ⟨st, s.log.length, o ++ s.log.drop p, false⟩
      rw [List.append_assoc, List.singleton_append, ← List.drop_eq_getElem_cons hplt]

/-! ## Relay and writer lemmas -/

lemma writerRun_all_ok (inputs : List String) :
    writerRun inputs (fun _ => true)
      = (inputs.flatMap
          (fun m => [WriteEvent.data m, WriteEvent.data "\n", WriteEvent.flush]), true) := by
  induction inputs with
  | nil => rfl
  | cons m rest ih =>
      simp [writerRun, ih, List.flatMap_cons]

lemma recvRun_ok (inputs : List String) :
    ∀ h : HubState, h.nReceivers ≠ 0 →
      recvRun h true inputs
        = ⟨⟨List.foldl historyPush h.buf inputs, h.nReceivers⟩, inputs, inputs, false⟩ := by
  induction inputs with
  | nil => intro h hn; rfl
  | cons i rest ih =>
      intro h hn
      have hb : broadcast_input h i
          = (Except.ok (), ⟨historyPush h.buf i, h.nReceivers⟩) := by
        simp [broadcast_input, broadcastSend, hn]
      simp only [recvRun, hb, if_true]
      rw [ih ⟨historyPush h.buf i, h.nReceivers⟩ hn]
      rfl

/-- C5: each text input received from a viewer is published to the hub
exactly once and enqueued to the process stdin exactly once, in order, with
the connection staying up; the writer task emits each enqueued line
followed by a single newline and a flush; and a subscriber live at publish
time receives each published input exactly once, in order, on its
receiver. -/
theorem C5_input_published_and_enqueued_once (h : HubState) (inputs : List String)
    (hn : h.nReceivers ≠ 0) :
    recvRun h true inputs
      = ⟨⟨List.foldl historyPush h.buf inputs, h.nReceivers⟩, inputs, inputs, false⟩
    ∧ (writerRun inputs (fun _ => true)).1
        = inputs.flatMap
            (fun m => [WriteEvent.data m, WriteEvent.data "\n", WriteEvent.flush])
    ∧ (writerRun inputs (fun _ => true)).2 = true
    ∧ (∀ (c : Nat) (pre : List String), inputs.length ≤ c →
        (runSchedFrom c ⟨pre, [⟨pre.length, pre.length, [], false⟩]⟩
            (inputs.map ChanEvent.send
              ++ List.replicate inputs.length (ChanEvent.recv 0))).receivers[0]?
          = some ⟨pre.length, pre.length + inputs.length, inputs, false⟩) := by
  refine ⟨recvRun_ok inputs h hn, ?_, ?_, ?_⟩
  · rw [writerRun_all_ok]
  · rw [writerRun_all_ok]
  · intro c pre hcap
    have hsplit : runSchedFrom c ⟨pre, [⟨pre.length, pre.length, [], false⟩]⟩
        (inputs.map ChanEvent.send ++ List.replicate inputs.length (ChanEvent.recv 0))
        = runSchedFrom c
            (runSchedFrom c ⟨pre, [⟨pre.length, pre.length, [], false⟩]⟩
              (inputs.map ChanEvent.send))
            (List.replicate inputs.length (ChanEvent.recv 0)) := by
      unfold runSchedFrom
      rw [List.foldl_append]
    rw [hsplit, runSchedFrom_sends]
    have hdrain := chan_drain c inputs.length
      ⟨pre ++ inputs, [⟨pre.length, pre.length, [], false⟩]⟩ 0
      pre.length pre.length ([] : List String) rfl
      (by simp) (by simp; omega) (by simp)
    rw [hdrain.2]
    simp

/-- Witness for C5: one viewer input `"hello"` on a hub with one
subscriber. -/
theorem C5_input_published_and_enqueued_once_witness :
    (⟨[], 1⟩ : HubState).nReceivers ≠ 0
    ∧ recvRun ⟨[], 1⟩ true ["hello"] = ⟨⟨["hello"], 1⟩, ["hello"], ["hello"], false⟩
    ∧ (writerRun ["hello"] (fun _ => true)).1
        = [WriteEvent.data "hello", WriteEvent.data "\n", WriteEvent.flush]
    ∧ (runSchedFrom 1 ⟨[], [⟨0, 0, [], false⟩]⟩
          (["hello"].map ChanEvent.send ++ List.replicate 1 (ChanEvent.recv 0))).receivers[0]?
        = some ⟨0, 1, ["hello"], false⟩ := by
  have hmain := C5_input_published_and_enqueued_once ⟨[], 1⟩ ["hello"] (by decide)
  exact ⟨by decide, hmain.1, hmain.2.1, hmain.2.2.2 1 [] (by decide)⟩

/-- C6: the fail-fast slow-consumer policy of the relay loop.  If a
receiver has fallen more than the channel capacity behind, its next poll
observes `Lagged` and its relay loop breaks — nothing is reordered or
delivered out of band, its output stays exactly what it was — and a broken
receiver is inert under every later event; meanwhile every other live
receiver has received precisely the log segment between its subscription
point and its cursor, in publish order, and can drain all remaining
messages uninterrupted. -/
theorem C6_slow_consumer_fail_fast (c : Nat) (sched : List ChanEvent) (i : Nat)
    (r : Receiver) (hri : (runSched c sched).receivers[i]? = some r) :
    (r.broken = false → c < (runSched c sched).log.length - r.pos →
      (chanStep c (runSched c sched) (ChanEvent.recv i)).receivers[i]?
        = some ⟨r.start, (runSched c sched).log.length - c, r.out, true⟩)
    ∧ (r.broken = true → ∀ more : List ChanEvent,
        (runSchedFrom c (runSched c sched) more).receivers[i]? = some r)
    ∧ (∀ (j : Nat) (q : Receiver),
        (runSched c sched).receivers[j]? = some q → q.broken = false →
        q.out = ((runSched c sched).log.take q.pos).drop q.start
        ∧ ((runSched c sched).log.length - q.pos ≤ c →
            (runSchedFrom c (runSched c sched)
                (List.replicate ((runSched c sched).log.length - q.pos)
                  (ChanEvent.recv j))).receivers[j]?
              = some ⟨q.start, (runSched c sched).log.length,
                  q.out ++ (runSched c sched).log.drop q.pos, false⟩)) := by
  refine ⟨?_, ?_, ?_⟩
  · intro hb hlag
    have hstep : chanStep c (runSched c sched) (ChanEvent.recv i)
        = { runSched c sched with
            receivers := (runSched c sched).receivers.set i ⟨r.start, (runSched c sched).log.length - c, r.out, true⟩ } := by
      simp [chanStep, hri, hb, hlag]
    rw [hstep]
    simp only []
    rw [List.getElem?_set_self ((List.getElem?_eq_some.mp hri).1)]
  · intro hb more
    exact chan_frozen_run c more (runSched c sched) i r hri hb
  · intro j q hqj hqb
    obtain ⟨hjlt, hjget⟩ := List.getElem?_eq_some.mp hqj
    have hmem : q ∈ (runSched c sched).receivers := hjget ▸ List.getElem_mem hjlt
    obtain ⟨g1, g2, g3⟩ := chanInv_run c sched q hmem
    refine ⟨g3 hqb, ?_⟩
    intro hcap
    obtain ⟨qs, qp, qo, qb⟩ := q
    subst hqb
    exact (chan_drain c ((runSched c sched).log.length - qp) (runSched c sched)
      j qs qp qo hqj g2 hcap rfl).2

/-- Witness for C6 on `lagSched` with capacity 1: receiver 0 (backlog 3)
breaks on its next poll with its output unchanged, while receiver 1 has
received all three messages in order. -/
theorem C6_slow_consumer_fail_fast_witness :
    (runSched 1 lagSched).receivers[0]? = some ⟨0, 0, [], false⟩
    ∧ (chanStep 1 (runSched 1 lagSched) (ChanEvent.recv 0)).receivers[0]?
        = some ⟨0, 2, [], true⟩
    ∧ (⟨0, 3, ["a", "b", "c"], false⟩ : Receiver).out
        = ((runSched 1 lagSched).log.take 3).drop 0 := by
  have h := C6_slow_consumer_fail_fast 1 lagSched 0 ⟨0, 0, [], false⟩ (by decide)
  exact ⟨by decide, h.1 rfl (by decide),
    (h.2.2 1 ⟨0, 3, ["a", "b", "c"], false⟩ (by decide) rfl).1⟩

end WebTerminal
